import Mathlib

/-!
Shallow embedding of the Stakecryptosack backend (the Mongoose variant of
server.js: the admin deposit/withdraw approval flow, decline, the internal
transfer endpoint, and the membership payout cron job), together with
theorems settling the spec claims about those operations.

Amounts are modelled as rationals, calendar dates and document ids as
naturals.  The persistent store is modelled explicitly: users as an
association list keyed by id, transactions and memberships as lists whose
indices play the role of document ids.
-/

namespace Stake

/-- The coin symbols a balance map carries (USD is the internal settlement
unit for payouts). -/
inductive Coin
  | BTC | ETH | USDT | BNB | ADA | USD
deriving DecidableEq, Repr

/-- Per-coin balances of a user document
(`balances: { BTC:0, ETH:0, USDT:0, BNB:0, ADA:0, USD:0 }`). -/
structure Balances where
  BTC : ℚ
  ETH : ℚ
  USDT : ℚ
  BNB : ℚ
  ADA : ℚ
  USD : ℚ
deriving DecidableEq, Repr

/-- Dynamic read `user.balances[coin]`. -/
def Balances.get (b : Balances) : Coin → ℚ
  | .BTC => b.BTC
  | .ETH => b.ETH
  | .USDT => b.USDT
  | .BNB => b.BNB
  | .ADA => b.ADA
  | .USD => b.USD

/-- Dynamic write `user.balances[coin] = v`. -/
def Balances.set (b : Balances) : Coin → ℚ → Balances
  | .BTC, v => { b with BTC := v }
  | .ETH, v => { b with ETH := v }
  | .USDT, v => { b with USDT := v }
  | .BNB, v => { b with BNB := v }
  | .ADA, v => { b with ADA := v }
  | .USD, v => { b with USD := v }

/-- All-zero balances, the initial value at registration. -/
def zeroBalances : Balances := ⟨0, 0, 0, 0, 0, 0⟩

/-- Transaction kinds appearing in the server. -/
inductive TxType
  | DEPOSIT | WITHDRAW | TRANSFER | PAYOUT | MEMBERSHIP_PAYOUT
deriving DecidableEq, Repr

/-- Transaction lifecycle states. -/
inductive TxStatus
  | PENDING | CONFIRMED | DECLINED
deriving DecidableEq, Repr

/-- The free-form `meta` object attached to transactions, with the keys the
server actually reads or writes (`isMembership`, `membershipTier`,
`tx_hash`, the transfer direction tags, and the payout bookkeeping keys). -/
structure TxMeta where
  isMembership : Bool
  membershipTier : Option String
  txHash : Option String
  direction : Option String
  toUser : Option String
  fromUser : Option String
  reason : Option String
  membershipRef : Option Nat
deriving DecidableEq, Repr

/-- A fresh `meta` object with no keys set. -/
def TxMeta.empty : TxMeta := ⟨false, none, none, none, none, none, none, none⟩

/-- A transaction document. -/
structure Tx where
  userId : Nat
  type : TxType
  coin : Coin
  amount : ℚ
  status : TxStatus
  meta : TxMeta
deriving DecidableEq, Repr

/-- Membership lifecycle states. -/
inductive MStatus
  | ACTIVE | COMPLETED | CANCELLED
deriving DecidableEq, Repr

/-- A membership document, as created by the approve-deposit handler and
advanced by the payout cron job. -/
structure Membership where
  userId : Nat
  tier : String
  startDate : Nat
  status : MStatus
  durationDays : Nat
  daysPaid : Nat
  dailyAmount : ℚ
  bonusAtMonthEnd : ℚ
  bonusPaid : Bool
  lastPayout : Option Nat
deriving DecidableEq, Repr

/-- A user document (fields the modelled handlers touch). -/
structure User where
  email : String
  username : String
  password : String
  balances : Balances
  membership : Option String
  membershipActivatedAt : Option Nat
deriving DecidableEq, Repr

/-- The persistent store: users keyed by id, transactions and memberships
as lists whose indices serve as document ids. -/
structure ServerState where
  users : List (Nat × User)
  txs : List Tx
  memberships : List Membership
deriving DecidableEq, Repr

/-- `User.findById(id)`. -/
def findUser (us : List (Nat × User)) (id : Nat) : Option User :=
  (us.find? (fun p => p.fst = id)).map Prod.snd

/-- `user.save()`: write the document back under its id. -/
def saveUser (us : List (Nat × User)) (id : Nat) (u : User) : List (Nat × User) :=
  us.map (fun p => if p.fst = id then (id, u) else p)

/-- `User.findOne({ username })`: first user with the given username. -/
def findByUsername (us : List (Nat × User)) (name : String) : Option (Nat × User) :=
  us.find? (fun p => p.snd.username = name)

/-- A tier's fixed schedule from the `TIERS` config table. -/
structure TierCfg where
  price : ℚ
  daily : ℚ
  duration : Nat
  bonus : ℚ
deriving DecidableEq, Repr

/-- The `TIERS` config: recognized membership tiers V1–V5. -/
def TIERS : String → Option TierCfg
  | "V1" => some ⟨51, 10, 5, 50⟩
  | "V2" => some ⟨1498.5, 100, 7, 3000⟩
  | "V3" => some ⟨3001, 10000, 10, 90000⟩
  | "V4" => some ⟨29998.5, 50000, 15, 300000⟩
  | "V5" => some ⟨50001, 75000, 30, 500000⟩
  | _ => none

/-- The JS truthiness test `tx.meta.isMembership && tx.meta.membershipTier`:
returns the tier string when the metadata marks a membership purchase
(an empty tier string is falsy in JS). -/
def membershipTierOf (m : TxMeta) : Option String :=
  match m.isMembership, m.membershipTier with
  | true, some t => if t = "" then none else some t
  | _, _ => none

/-- The `ALLOWED` coin check on user-facing endpoints: parses the request's
coin string; USD is not an allowed request coin. -/
def allowedCoin : String → Option Coin
  | "BTC" => some .BTC
  | "ETH" => some .ETH
  | "USDT" => some .USDT
  | "BNB" => some .BNB
  | "ADA" => some .ADA
  | _ => none

/-- Outcomes of `POST /api/admin/approve-deposit`. -/
inductive DepRes
  | notFound | notDeposit | alreadyConfirmed | userNotFound
  | confirmedUnknownTier | membershipActivated | ok
deriving DecidableEq, Repr

/-- `POST /api/admin/approve-deposit` (part_003 lines 335–398): confirm the
transaction, then either create a membership (recognized tier), credit the
coin balance (plain deposit or unrecognized tier), or error out. -/
def approveDeposit (s : ServerState) (txId : Nat) (today : Nat) :
    ServerState × DepRes :=
  match s.txs[txId]? with
  | none => (s, .notFound)
  | some tx =>
    if tx.type ≠ .DEPOSIT then (s, .notDeposit)
    else if tx.status = .CONFIRMED then (s, .alreadyConfirmed)
    else
      let tx1 := { tx with status := .CONFIRMED }
      let s1 := { s with txs := s.txs.set txId tx1 }
      match findUser s1.users tx.userId with
      | none => (s1, .userNotFound)
      | some user =>
        match membershipTierOf tx.meta with
        | some tier =>
          match TIERS tier with
          | none =>
            let u1 := { user with
              balances := user.balances.set tx.coin
                (user.balances.get tx.coin + tx.amount) }
            ({ s1 with users := saveUser s1.users tx.userId u1 },
             .confirmedUnknownTier)
          | some tcfg =>
            let mem : Membership :=
              ⟨tx.userId, tier, today, .ACTIVE, tcfg.duration, 0,
               tcfg.daily, tcfg.bonus, false, none⟩
            let u1 := { user with
              membership := some tier, membershipActivatedAt := some today }
            ({ s1 with
               memberships := s1.memberships ++ [mem],
               users := saveUser s1.users tx.userId u1 },
             .membershipActivated)
        | none =>
          let u1 := { user with
            balances := user.balances.set tx.coin
              (user.balances.get tx.coin + tx.amount) }
          ({ s1 with users := saveUser s1.users tx.userId u1 }, .ok)

/-- Outcomes of `POST /api/admin/approve-withdraw`. -/
inductive WdRes
  | notFound | notWithdraw | alreadyConfirmed | userNotFound
  | insufficient | ok
deriving DecidableEq, Repr

/-- `POST /api/admin/approve-withdraw` (part_003 lines 401–437): declines
when the balance no longer covers the amount, otherwise confirms, attaches
the supplied hash to `meta`, and deducts the balance. -/
def approveWithdraw (s : ServerState) (txId : Nat) (txHash : Option String) :
    ServerState × WdRes :=
  match s.txs[txId]? with
  | none => (s, .notFound)
  | some tx =>
    if tx.type ≠ .WITHDRAW then (s, .notWithdraw)
    else if tx.status = .CONFIRMED then (s, .alreadyConfirmed)
    else
      match findUser s.users tx.userId with
      | none => (s, .userNotFound)
      | some user =>
        let current := user.balances.get tx.coin
        if current < tx.amount then
          ({ s with txs := s.txs.set txId { tx with status := .DECLINED } },
           .insufficient)
        else
          let tx1 := { tx with
            status := .CONFIRMED, meta := { tx.meta with txHash := txHash } }
          let u1 := { user with
            balances := user.balances.set tx.coin (current - tx.amount) }
          ({ s with
             txs := s.txs.set txId tx1,
             users := saveUser s.users tx.userId u1 }, .ok)

/-- Outcomes of `POST /api/admin/decline-transaction`. -/
inductive DecRes
  | notFound | ok
deriving DecidableEq, Repr

/-- `POST /api/admin/decline-transaction` (part_003 lines 440–454): sets the
status to DECLINED unconditionally (no guard on the current status) and
never touches balances. -/
def declineTransaction (s : ServerState) (txId : Nat) : ServerState × DecRes :=
  match s.txs[txId]? with
  | none => (s, .notFound)
  | some tx =>
    ({ s with txs := s.txs.set txId { tx with status := .DECLINED } }, .ok)

/-- Outcomes of `POST /api/withdraw`. -/
inductive NewWdRes
  | invalidWithdrawal | unsupportedCoin | userNotFound
  | insufficientBalance | ok (txId : Nat)
deriving DecidableEq, Repr

/-- `POST /api/withdraw` (part_003 lines 267–290): validates the request,
checks the current coin balance, and inserts a PENDING WITHDRAW record. -/
def createWithdraw (s : ServerState) (userId : Nat) (coinStr : String)
    (amount : ℚ) : ServerState × NewWdRes :=
  if coinStr = "" ∨ amount ≤ 0 then (s, .invalidWithdrawal)
  else
    match allowedCoin coinStr with
    | none => (s, .unsupportedCoin)
    | some coin =>
      match findUser s.users userId with
      | none => (s, .userNotFound)
      | some user =>
        if user.balances.get coin < amount then (s, .insufficientBalance)
        else
          ({ s with txs := s.txs ++
              [⟨userId, .WITHDRAW, coin, amount, .PENDING, TxMeta.empty⟩] },
           .ok s.txs.length)

/-- Outcomes of `POST /api/internal-transfer`. -/
inductive TrRes
  | invalidTransfer | unsupportedCoin | senderNotFound
  | insufficientBalance | recipientNotFound | ok
deriving DecidableEq, Repr

/-- `POST /api/internal-transfer` (part_004 lines 423–481): loads sender and
receiver documents, debits the sender and credits the receiver in memory,
then saves the sender first and the receiver last, and records the two
CONFIRMED TRANSFER entries.  Both documents are read from the original
store, so a self-transfer's credited receiver copy overwrites the debit. -/
def internalTransfer (s : ServerState) (senderId : Nat) (recipient : String)
    (amount : ℚ) (coinStr : String) : ServerState × TrRes :=
  if recipient = "" ∨ amount ≤ 0 then (s, .invalidTransfer)
  else
    match allowedCoin coinStr with
    | none => (s, .unsupportedCoin)
    | some coin =>
      match findUser s.users senderId with
      | none => (s, .senderNotFound)
      | some sender =>
        let senderBalance := sender.balances.get coin
        if senderBalance < amount then (s, .insufficientBalance)
        else
          match findByUsername s.users recipient with
          | none => (s, .recipientNotFound)
          | some (recvId, receiver) =>
            let sender1 := { sender with
              balances := sender.balances.set coin (senderBalance - amount) }
            let receiver1 := { receiver with
              balances := receiver.balances.set coin
                (receiver.balances.get coin + amount) }
            let us1 := saveUser s.users senderId sender1
            let us2 := saveUser us1 recvId receiver1
            let tx1 : Tx :=
              ⟨senderId, .TRANSFER, coin, amount, .CONFIRMED,
               { TxMeta.empty with
                 direction := some "SENT", toUser := some receiver.username }⟩
            let tx2 : Tx :=
              ⟨recvId, .TRANSFER, coin, amount, .CONFIRMED,
               { TxMeta.empty with
                 direction := some "RECEIVED",
                 fromUser := some sender.username }⟩
            ({ s with users := us2, txs := s.txs ++ [tx1, tx2] }, .ok)

/-- Per-membership entries of the cron results array. -/
inductive CronOut
  | skippedToday (i : Nat)
  | paidBonus (i : Nat)
  | skippedCompleted (i : Nat)
  | skippedNoDaily (i : Nat)
  | paidDaily (i : Nat) (daysPaid : Nat)
deriving DecidableEq, Repr

/-- Credit a user's USD balance inside the cron loop
(`u.balances.USD = (u.balances.USD || 0) + amt; await u.save()`, skipped
when the user document is missing). -/
def creditUSD (us : List (Nat × User)) (uid : Nat) (amt : ℚ) :
    List (Nat × User) :=
  match findUser us uid with
  | none => us
  | some u =>
    saveUser us uid
      { u with balances := u.balances.set .USD (u.balances.get .USD + amt) }

/-- One iteration of the cron loop on membership `i` (part_003 lines
474–529): skip non-ACTIVE memberships (the `find({status:"ACTIVE"})`
filter), skip if already paid on the current calendar date, then either
handle a completed membership's bonus or pay the daily amount. -/
def cronStep (today : Nat) (s : ServerState) (i : Nat) :
    ServerState × Option CronOut :=
  match s.memberships[i]? with
  | none => (s, none)
  | some m =>
    if m.status ≠ .ACTIVE then (s, none)
    else if m.lastPayout = some today then (s, some (.skippedToday i))
    else if m.durationDays ≤ m.daysPaid then
      if !m.bonusPaid then
        if 0 < m.bonusAtMonthEnd then
          let tx : Tx :=
            ⟨m.userId, .PAYOUT, .USD, m.bonusAtMonthEnd, .CONFIRMED,
             { TxMeta.empty with
               reason := some "membership_bonus", membershipRef := some i }⟩
          ({ s with
             txs := s.txs ++ [tx],
             users := creditUSD s.users m.userId m.bonusAtMonthEnd,
             memberships := s.memberships.set i { m with bonusPaid := true } },
           some (.paidBonus i))
        else (s, none)
      else (s, some (.skippedCompleted i))
    else
      if m.dailyAmount ≤ 0 then (s, some (.skippedNoDaily i))
      else
        let tx : Tx :=
          ⟨m.userId, .MEMBERSHIP_PAYOUT, .USD, m.dailyAmount, .CONFIRMED,
           { TxMeta.empty with membershipRef := some i }⟩
        let m1 := { m with
          daysPaid := m.daysPaid + 1,
          lastPayout := some today,
          status := if m.durationDays ≤ m.daysPaid + 1 then
            MStatus.COMPLETED else m.status }
        ({ s with
           txs := s.txs ++ [tx],
           users := creditUSD s.users m.userId m.dailyAmount,
           memberships := s.memberships.set i m1 },
         some (.paidDaily i (m.daysPaid + 1)))

/-- The cron loop over a list of membership indices, accumulating results. -/
def cronLoop (today : Nat) : List Nat → ServerState → List CronOut →
    ServerState × List CronOut
  | [], s, acc => (s, acc)
  | i :: rest, s, acc =>
    let p := cronStep today s i
    cronLoop today rest p.fst (acc ++ p.snd.toList)

/-- `POST /api/cron/payouts` (part_003 lines 469–536): run the loop over all
membership documents in store order. -/
def cronPayouts (s : ServerState) (today : Nat) : ServerState × List CronOut :=
  cronLoop today (List.range s.memberships.length) s []

def coinTotal (us : List (Nat × User)) (c : Coin) : ℚ :=
  (us.map (fun p => p.snd.balances.get c)).sum

/-- A membership record on which the cron step is a state no-op on date d. -/
def recStable (d : Nat) (m : Membership) : Prop :=
  m.status ≠ .ACTIVE ∨ m.lastPayout = some d ∨
  (m.durationDays ≤ m.daysPaid ∧ (m.bonusPaid = true ∨ m.bonusAtMonthEnd ≤ 0)) ∨
  (m.daysPaid < m.durationDays ∧ m.dailyAmount ≤ 0)

/-- The membership record after a daily payout on date d. -/
def dailyUpdate (d : Nat) (m : Membership) : Membership :=
  { m with
    daysPaid := m.daysPaid + 1
    lastPayout := some d
    status := if m.durationDays ≤ m.daysPaid + 1 then
      MStatus.COMPLETED else m.status }

def runDays (s : ServerState) : List Nat → ServerState
  | [] => s
  | d :: ds => runDays (cronPayouts s d).fst ds

def exUser : User := ⟨"a@x", "alice", "pw", { zeroBalances with USDT := 100 }, none, none⟩

def exState : ServerState := ⟨[(0, exUser)], [], []⟩

def bobUser : User := ⟨"b@x", "bob", "pw", zeroBalances, none, none⟩

def twoUserState : ServerState := ⟨[(0, exUser), (1, bobUser)], [], []⟩

def exWdBigTx : Tx := ⟨0, .WITHDRAW, .USDT, 150, .PENDING, TxMeta.empty⟩

def exWdBigState : ServerState := ⟨[(0, exUser)], [exWdBigTx], []⟩

def exMemTx : Tx :=
  ⟨0, .DEPOSIT, .USDT, 51, .PENDING,
   { TxMeta.empty with
     isMembership := true
     membershipTier := some "V1" }⟩

def exMemState : ServerState := ⟨[(0, exUser)], [exMemTx], []⟩

def exCTx : Tx := ⟨0, .DEPOSIT, .USDT, 100, .CONFIRMED, TxMeta.empty⟩

def exCState : ServerState := ⟨[(0, exUser)], [exCTx], []⟩

def exDeclTx : Tx := ⟨0, .DEPOSIT, .USDT, 100, .DECLINED, TxMeta.empty⟩

def exDeclState : ServerState := ⟨[(0, exUser)], [exDeclTx], []⟩

def v1Mem : Membership := ⟨0, "V1", 0, .ACTIVE, 5, 0, 10, 50, false, none⟩

def v1State : ServerState := ⟨[(0, exUser)], [], [v1Mem]⟩

lemma getElem?_some_lt {α : Type} {l : List α} {i : Nat} {a : α}
    (h : l[i]? = some a) : i < l.length := by
  rcases List.getElem?_eq_some.mp h with ⟨hl, _⟩
  exact hl

lemma findUser_saveUser_self {us : List (Nat × User)} {id : Nat} {u : User}
    (u1 : User) (h : findUser us id = some u) :
    findUser (saveUser us id u1) id = some u1 := by
  induction us with
  | nil => simp [findUser] at h
  | cons p rest ih =>
    by_cases hp : p.fst = id
    · simp [findUser, saveUser, List.find?_cons, hp]
    · have h' : findUser rest id = some u := by
        simpa [findUser, List.find?_cons, hp] using h
      simpa [findUser, saveUser, List.find?_cons, hp] using ih h'

lemma findUser_saveUser_ne {us : List (Nat × User)} {id id' : Nat}
    (u1 : User) (h : id' ≠ id) :
    findUser (saveUser us id u1) id' = findUser us id' := by
  induction us with
  | nil => rfl
  | cons p rest ih =>
    by_cases hp : p.fst = id
    · simpa [findUser, saveUser, List.find?_cons, hp, Ne.symm h] using ih
    · by_cases hq : p.fst = id'
      · simp [findUser, saveUser, List.find?_cons, hp, hq, h]
      · simpa [findUser, saveUser, List.find?_cons, hp, hq] using ih

lemma Balances.get_set_self (b : Balances) (c : Coin) (v : ℚ) :
    (b.set c v).get c = v := by
  cases c <;> rfl

lemma Balances.get_set_ne (b : Balances) {c c' : Coin} (v : ℚ) (h : c' ≠ c) :
    (b.set c v).get c' = b.get c' := by
  cases c <;> cases c' <;> simp_all [Balances.set, Balances.get]

lemma saveUser_of_not_mem {us : List (Nat × User)} {id : Nat} (u : User)
    (h : id ∉ us.map Prod.fst) : saveUser us id u = us := by
  induction us with
  | nil => rfl
  | cons p rest ih =>
    simp only [List.map_cons, List.mem_cons, not_or] at h
    have hp : ¬ p.fst = id := fun he => h.1 he.symm
    show (if p.fst = id then (id, u) else p) :: saveUser rest id u = p :: rest
    rw [if_neg hp, ih h.2]

lemma saveUser_cons_pos {p : Nat × User} {rest : List (Nat × User)}
    {id : Nat} (u : User) (hp : p.fst = id) :
    saveUser (p :: rest) id u = (id, u) :: saveUser rest id u := by
  show (if p.fst = id then (id, u) else p) :: saveUser rest id u = _
  rw [if_pos hp]

lemma saveUser_cons_neg {p : Nat × User} {rest : List (Nat × User)}
    {id : Nat} (u : User) (hp : ¬ p.fst = id) :
    saveUser (p :: rest) id u = p :: saveUser rest id u := by
  show (if p.fst = id then (id, u) else p) :: saveUser rest id u = _
  rw [if_neg hp]

lemma coinTotal_saveUser {us : List (Nat × User)} {id : Nat} {u : User}
    (u' : User) (c : Coin)
    (hnd : (us.map Prod.fst).Nodup) (h : findUser us id = some u) :
    coinTotal (saveUser us id u') c =
      coinTotal us c - u.balances.get c + u'.balances.get c := by
  induction us with
  | nil => simp [findUser] at h
  | cons p rest ih =>
    simp only [List.map_cons, List.nodup_cons] at hnd
    by_cases hp : p.fst = id
    · have hu : p.snd = u := by
        simpa [findUser, List.find?_cons, hp] using h
      have hrest : saveUser rest id u' = rest := by
        refine saveUser_of_not_mem _ ?_
        rw [← hp]; exact hnd.1
      rw [saveUser_cons_pos _ hp, hrest]
      simp only [coinTotal, List.map_cons, List.sum_cons, ← hu]
      ring
    · have h' : findUser rest id = some u := by
        simpa [findUser, List.find?_cons, hp] using h
      rw [saveUser_cons_neg _ hp]
      simp only [coinTotal, List.map_cons, List.sum_cons]
      rw [show ((saveUser rest id u').map (fun p => p.snd.balances.get c)).sum = coinTotal (saveUser rest id u') c from rfl]
      rw [ih hnd.2 h']
      simp only [coinTotal]
      ring

lemma saveUser_keys (us : List (Nat × User)) (id : Nat) (u : User) :
    (saveUser us id u).map Prod.fst = us.map Prod.fst := by
  induction us with
  | nil => rfl
  | cons p rest ih =>
    by_cases hp : p.fst = id
    · rw [saveUser_cons_pos _ hp]
      simp only [List.map_cons, ih, hp]
    · rw [saveUser_cons_neg _ hp]
      simp only [List.map_cons, ih]

lemma approveDeposit_of_confirmed {s : ServerState} {txId d : Nat} {tx : Tx}
    (ht : s.txs[txId]? = some tx) (hst : tx.status = .CONFIRMED) :
    (approveDeposit s txId d).fst = s := by
  by_cases hty : tx.type = .DEPOSIT
  · simp [approveDeposit, ht, hty, hst]
  · simp [approveDeposit, ht, hty]

lemma approveDeposit_confirms {s : ServerState} {txId d : Nat} {tx : Tx}
    (ht : s.txs[txId]? = some tx) (hty : tx.type = .DEPOSIT)
    (hst : ¬ tx.status = .CONFIRMED) :
    (approveDeposit s txId d).fst.txs[txId]? =
      some { tx with status := TxStatus.CONFIRMED } := by
  rcases hu : findUser s.users tx.userId with _ | u
  · simp [approveDeposit, ht, hty, hst, hu,
      List.getElem?_set_self (getElem?_some_lt ht)]
  · rcases hmt : membershipTierOf tx.meta with _ | tier
    · simp [approveDeposit, ht, hty, hst, hu, hmt,
        List.getElem?_set_self (getElem?_some_lt ht)]
    · rcases hcfg : TIERS tier with _ | tcfg <;>
        simp [approveDeposit, ht, hty, hst, hu, hmt, hcfg,
          List.getElem?_set_self (getElem?_some_lt ht)]

lemma cronStep_skips_today {s : ServerState} {i d : Nat} {m : Membership}
    (hm : s.memberships[i]? = some m) (hact : m.status = .ACTIVE)
    (hlp : m.lastPayout = some d) :
    cronStep d s i = (s, some (.skippedToday i)) := by
  simp [cronStep, hm, hact, hlp]

lemma cronStep_pays_daily {s : ServerState} {i d : Nat} {m : Membership}
    (hm : s.memberships[i]? = some m) (hact : m.status = .ACTIVE)
    (hlp : m.lastPayout ≠ some d) (hdp : m.daysPaid < m.durationDays)
    (hda : 0 < m.dailyAmount) :
    cronStep d s i =
      ({ s with
         txs := s.txs ++
           [⟨m.userId, .MEMBERSHIP_PAYOUT, .USD, m.dailyAmount, .CONFIRMED,
             { TxMeta.empty with membershipRef := some i }⟩],
         users := creditUSD s.users m.userId m.dailyAmount,
         memberships := s.memberships.set i (dailyUpdate d m) },
       some (.paidDaily i (m.daysPaid + 1))) := by
  simp [cronStep, hm, hact, hlp, not_le.mpr hdp, not_le.mpr hda, dailyUpdate]

lemma cronStep_of_recStable {s : ServerState} {i d : Nat} {m : Membership}
    (hm : s.memberships[i]? = some m) (hst : recStable d m) :
    (cronStep d s i).fst = s := by
  by_cases hact : m.status = .ACTIVE
  swap
  · simp [cronStep, hm, hact]
  rcases hst with h | h | ⟨h1, h2⟩ | ⟨h1, h2⟩
  · exact absurd hact h
  · simp [cronStep, hm, hact, h]
  · by_cases hlp : m.lastPayout = some d
    · simp [cronStep, hm, hact, hlp]
    · rcases h2 with h2 | h2
      · simp [cronStep, hm, hact, hlp, h1, h2]
      · by_cases hbp : m.bonusPaid
        · simp [cronStep, hm, hact, hlp, h1, hbp]
        · simp [cronStep, hm, hact, hlp, h1, hbp, not_lt.mpr h2]
  · by_cases hlp : m.lastPayout = some d
    · simp [cronStep, hm, hact, hlp]
    · simp [cronStep, hm, hact, hlp, not_le.mpr h1, h2]

lemma cronStep_cases (d : Nat) (s : ServerState) (i : Nat) :
    ((cronStep d s i).fst = s ∧
      (∀ m, s.memberships[i]? = some m → recStable d m)) ∨
    (∃ m, s.memberships[i]? = some m ∧ m.status = .ACTIVE ∧
      m.lastPayout ≠ some d ∧
      ((m.durationDays ≤ m.daysPaid ∧ m.bonusPaid = false ∧
        0 < m.bonusAtMonthEnd ∧
        (cronStep d s i).fst.memberships =
          s.memberships.set i { m with bonusPaid := true }) ∨
       (m.daysPaid < m.durationDays ∧ 0 < m.dailyAmount ∧
        (cronStep d s i).fst.memberships =
          s.memberships.set i (dailyUpdate d m)))) := by
  rcases hm : s.memberships[i]? with _ | m
  · left
    refine ⟨by simp [cronStep, hm], ?_⟩
    intro m hm2; cases hm2
  · by_cases hact : m.status = .ACTIVE
    · by_cases hlp : m.lastPayout = some d
      · left
        refine ⟨?_, ?_⟩
        · simp [cronStep, hm, hact, hlp]
        · intro m2 hm2; cases hm2
          exact Or.inr (Or.inl hlp)
      · by_cases hdur : m.durationDays ≤ m.daysPaid
        · by_cases hbp : m.bonusPaid
          · left
            refine ⟨?_, ?_⟩
            · simp [cronStep, hm, hact, hlp, hdur, hbp]
            · intro m2 hm2; cases hm2
              exact Or.inr (Or.inr (Or.inl ⟨hdur, Or.inl hbp⟩))
          · by_cases hba : 0 < m.bonusAtMonthEnd
            · right
              refine ⟨m, rfl, hact, hlp,
                Or.inl ⟨hdur, by simpa using hbp, hba, ?_⟩⟩
              simp [cronStep, hm, hact, hlp, hdur, hbp, hba]
            · left
              refine ⟨?_, ?_⟩
              · simp [cronStep, hm, hact, hlp, hdur, hbp, hba]
              · intro m2 hm2; cases hm2
                exact Or.inr (Or.inr (Or.inl ⟨hdur, Or.inr (not_lt.mp hba)⟩))
        · by_cases hda : m.dailyAmount ≤ 0
          · left
            refine ⟨?_, ?_⟩
            · simp [cronStep, hm, hact, hlp, hdur, hda]
            · intro m2 hm2; cases hm2
              exact Or.inr (Or.inr (Or.inr ⟨not_le.mp hdur, hda⟩))
          · right
            refine ⟨m, rfl, hact, hlp,
              Or.inr ⟨not_le.mp hdur, not_le.mp hda, ?_⟩⟩
            rw [cronStep_pays_daily hm hact hlp (not_le.mp hdur)
              (not_le.mp hda)]
    · left
      refine ⟨?_, ?_⟩
      · simp [cronStep, hm, hact]
      · intro m2 hm2; cases hm2
        exact Or.inl hact

lemma cronStep_frame {s : ServerState} {i j d : Nat} (h : j ≠ i) :
    (cronStep d s i).fst.memberships[j]? = s.memberships[j]? := by
  rcases cronStep_cases d s i with ⟨h1, _⟩ | ⟨m, _, _, _, hc⟩
  · rw [h1]
  · rcases hc with ⟨_, _, _, hmem⟩ | ⟨_, _, hmem⟩ <;>
      rw [hmem, List.getElem?_set_ne (Ne.symm h)]

lemma cronStep_length (d : Nat) (s : ServerState) (i : Nat) :
    (cronStep d s i).fst.memberships.length = s.memberships.length := by
  rcases cronStep_cases d s i with ⟨h1, _⟩ | ⟨m, _, _, _, hc⟩
  · rw [h1]
  · rcases hc with ⟨_, _, _, hmem⟩ | ⟨_, _, hmem⟩ <;>
      rw [hmem, List.length_set]

lemma cronStep_stabilizes (d : Nat) (s : ServerState) (i : Nat) :
    ∀ m', (cronStep d s i).fst.memberships[i]? = some m' → recStable d m' := by
  rcases cronStep_cases d s i with ⟨h1, h2⟩ | ⟨m, hm, hact, hlp, hc⟩
  · rw [h1]; exact h2
  · have hlen : i < s.memberships.length := by
      rcases List.getElem?_eq_some.mp hm with ⟨hl, _⟩
      exact hl
    rcases hc with ⟨hdur, hbp, hba, hmem⟩ | ⟨hdp, hda, hmem⟩
    · intro m' hm'
      rw [hmem, List.getElem?_set_self hlen] at hm'
      cases hm'
      exact Or.inr (Or.inr (Or.inl ⟨hdur, Or.inl rfl⟩))
    · intro m' hm'
      rw [hmem, List.getElem?_set_self hlen] at hm'
      cases hm'
      exact Or.inr (Or.inl rfl)

lemma cronStep_daysPaid {s : ServerState} {i j d : Nat}
    (h : ∀ m, s.memberships[j]? = some m → m.daysPaid ≤ m.durationDays) :
    ∀ m', (cronStep d s i).fst.memberships[j]? = some m' →
      m'.daysPaid ≤ m'.durationDays := by
  by_cases hij : j = i
  · subst hij
    rcases cronStep_cases d s j with ⟨h1, _⟩ | ⟨m, hm, hact, hlp, hc⟩
    · rw [h1]; exact h
    · have hlen : j < s.memberships.length := by
        rcases List.getElem?_eq_some.mp hm with ⟨hl, _⟩
        exact hl
      rcases hc with ⟨hdur, hbp, hba, hmem⟩ | ⟨hdp, hda, hmem⟩
      · intro m' hm'
        rw [hmem, List.getElem?_set_self hlen] at hm'
        cases hm'
        exact h m hm
      · intro m' hm'
        rw [hmem, List.getElem?_set_self hlen] at hm'
        cases hm'
        exact hdp
  · intro m' hm'
    rw [cronStep_frame hij] at hm'
    exact h m' hm'

lemma cronLoop_acc_mem {d : Nat} {idxs : List Nat} {s : ServerState}
    {acc : List CronOut} {x : CronOut} (h : x ∈ acc) :
    x ∈ (cronLoop d idxs s acc).snd := by
  induction idxs generalizing s acc with
  | nil => exact h
  | cons i rest ih =>
    exact ih (List.mem_append_left _ h)

lemma cronLoop_length (d : Nat) (idxs : List Nat) (s : ServerState)
    (acc : List CronOut) :
    (cronLoop d idxs s acc).fst.memberships.length =
      s.memberships.length := by
  induction idxs generalizing s acc with
  | nil => rfl
  | cons i rest ih =>
    rw [show cronLoop d (i :: rest) s acc =
      cronLoop d rest (cronStep d s i).fst
        (acc ++ (cronStep d s i).snd.toList) from rfl]
    rw [ih, cronStep_length]

lemma cronLoop_frame {d : Nat} {idxs : List Nat} {s : ServerState}
    {acc : List CronOut} {j : Nat} (h : j ∉ idxs) :
    (cronLoop d idxs s acc).fst.memberships[j]? = s.memberships[j]? := by
  induction idxs generalizing s acc with
  | nil => rfl
  | cons i rest ih =>
    simp only [List.mem_cons, not_or] at h
    rw [show cronLoop d (i :: rest) s acc =
      cronLoop d rest (cronStep d s i).fst
        (acc ++ (cronStep d s i).snd.toList) from rfl]
    rw [ih h.2, cronStep_frame h.1]

lemma cronLoop_stab {d : Nat} {idxs : List Nat} {s : ServerState}
    {acc : List CronOut} {j : Nat}
    (h : j ∈ idxs ∨ ∀ m, s.memberships[j]? = some m → recStable d m) :
    ∀ m', (cronLoop d idxs s acc).fst.memberships[j]? = some m' →
      recStable d m' := by
  induction idxs generalizing s acc with
  | nil =>
    rcases h with h | h
    · cases h
    · exact h
  | cons i rest ih =>
    rw [show cronLoop d (i :: rest) s acc =
      cronLoop d rest (cronStep d s i).fst
        (acc ++ (cronStep d s i).snd.toList) from rfl]
    refine ih ?_
    rcases h with h | h
    · rcases List.mem_cons.mp h with h | h
      · subst h
        exact Or.inr (cronStep_stabilizes d s j)
      · exact Or.inl h
    · right
      by_cases hij : j = i
      · subst hij
        exact cronStep_stabilizes d s j
      · intro m' hm'
        rw [cronStep_frame hij] at hm'
        exact h m' hm'

lemma cronLoop_of_all_stable {d : Nat} {idxs : List Nat} {s : ServerState}
    (acc : List CronOut)
    (h : ∀ j ∈ idxs, ∀ m, s.memberships[j]? = some m → recStable d m) :
    (cronLoop d idxs s acc).fst = s := by
  induction idxs generalizing acc with
  | nil => rfl
  | cons i rest ih =>
    have hstep : (cronStep d s i).fst = s := by
      rcases hm : s.memberships[i]? with _ | m
      · rcases cronStep_cases d s i with ⟨h1, _⟩ | ⟨m, hm2, _⟩
        · exact h1
        · rw [hm] at hm2; cases hm2
      · exact cronStep_of_recStable hm (h i (List.mem_cons_self i rest) m hm)
    rw [show cronLoop d (i :: rest) s acc =
      cronLoop d rest (cronStep d s i).fst
        (acc ++ (cronStep d s i).snd.toList) from rfl]
    rw [hstep]
    exact ih _ (fun j hj => h j (List.mem_cons_of_mem i hj))

lemma cronLoop_daysPaid {d : Nat} {idxs : List Nat} {s : ServerState}
    {acc : List CronOut} {j : Nat}
    (h : ∀ m, s.memberships[j]? = some m → m.daysPaid ≤ m.durationDays) :
    ∀ m', (cronLoop d idxs s acc).fst.memberships[j]? = some m' →
      m'.daysPaid ≤ m'.durationDays := by
  induction idxs generalizing s acc with
  | nil => exact h
  | cons i rest ih =>
    rw [show cronLoop d (i :: rest) s acc =
      cronLoop d rest (cronStep d s i).fst
        (acc ++ (cronStep d s i).snd.toList) from rfl]
    exact ih (cronStep_daysPaid h)

lemma cronLoop_daily_update {d : Nat} {idxs : List Nat} {s : ServerState}
    {acc : List CronOut} {i : Nat} {m : Membership}
    (hnd : idxs.Nodup) (hmem : i ∈ idxs)
    (hm : s.memberships[i]? = some m) (hact : m.status = .ACTIVE)
    (hlp : m.lastPayout ≠ some d) (hdp : m.daysPaid < m.durationDays)
    (hda : 0 < m.dailyAmount) :
    (cronLoop d idxs s acc).fst.memberships[i]? =
      some (dailyUpdate d m) := by
  induction idxs generalizing s acc with
  | nil => cases hmem
  | cons k rest ih =>
    rw [show cronLoop d (k :: rest) s acc =
      cronLoop d rest (cronStep d s k).fst
        (acc ++ (cronStep d s k).snd.toList) from rfl]
    rcases List.mem_cons.mp hmem with hik | hik
    · subst hik
      have hlen : i < s.memberships.length :=
        (List.getElem?_eq_some.mp hm).1
      have hafter : (cronStep d s i).fst.memberships[i]? =
          some (dailyUpdate d m) := by
        rw [cronStep_pays_daily hm hact hlp hdp hda]
        exact List.getElem?_set_self hlen
      have hni : i ∉ rest := (List.nodup_cons.mp hnd).1
      rw [cronLoop_frame hni, hafter]
    · have hki : i ≠ k := by
        intro he; subst he
        exact (List.nodup_cons.mp hnd).1 hik
      have hm' : (cronStep d s k).fst.memberships[i]? = some m := by
        rw [cronStep_frame hki]; exact hm
      exact ih (List.nodup_cons.mp hnd).2 hik hm'

lemma cronLoop_skips_today_mem {d : Nat} {idxs : List Nat} {s : ServerState}
    {acc : List CronOut} {i : Nat} {m : Membership}
    (hstable : ∀ (j : Nat) (m' : Membership),
      s.memberships[j]? = some m' → recStable d m')
    (hmem : i ∈ idxs)
    (hm : s.memberships[i]? = some m) (hact : m.status = .ACTIVE)
    (hlp : m.lastPayout = some d) :
    CronOut.skippedToday i ∈ (cronLoop d idxs s acc).snd := by
  induction idxs generalizing s acc with
  | nil => cases hmem
  | cons k rest ih =>
    rw [show cronLoop d (k :: rest) s acc =
      cronLoop d rest (cronStep d s k).fst
        (acc ++ (cronStep d s k).snd.toList) from rfl]
    have hstep : (cronStep d s k).fst = s := by
      rcases hk : s.memberships[k]? with _ | mk
      · rcases cronStep_cases d s k with ⟨h1, _⟩ | ⟨mk, hk2, _⟩
        · exact h1
        · rw [hk] at hk2; cases hk2
      · exact cronStep_of_recStable hk (hstable k mk hk)
    rcases List.mem_cons.mp hmem with hik | hik
    · subst hik
      rw [cronStep_skips_today hm hact hlp]
      exact cronLoop_acc_mem
        (List.mem_append_right _ (List.mem_singleton.mpr rfl))
    · rw [hstep]
      exact ih hstable hik hm

/-- Claim C1: approving a PENDING deposit marks it CONFIRMED and credits the
owning user's balance for the transaction's coin by exactly the amount,
unless the metadata marks a membership purchase with a recognized tier
(V1–V5), in which case the user's balances are unchanged and a new ACTIVE
Membership with daysPaid 0 and the tier's configured durationDays,
dailyAmount and bonus is created instead; an unrecognized tier falls back
to a plain balance credit. -/
theorem approveDeposit_pending_spec {s : ServerState} {txId today : Nat}
    {tx : Tx} {u : User}
    (ht : s.txs[txId]? = some tx)
    (hty : tx.type = .DEPOSIT)
    (hst : tx.status = .PENDING)
    (hu : findUser s.users tx.userId = some u) :
    ((approveDeposit s txId today).fst.txs[txId]? =
       some { tx with status := .CONFIRMED }) ∧
    (∀ tier tcfg, membershipTierOf tx.meta = some tier →
      TIERS tier = some tcfg →
      (approveDeposit s txId today).snd = .membershipActivated ∧
      findUser (approveDeposit s txId today).fst.users tx.userId =
        some { u with membership := some tier,
                      membershipActivatedAt := some today } ∧
      (approveDeposit s txId today).fst.memberships =
        s.memberships ++ [⟨tx.userId, tier, today, .ACTIVE, tcfg.duration, 0,
          tcfg.daily, tcfg.bonus, false, none⟩]) ∧
    (membershipTierOf tx.meta = none →
      findUser (approveDeposit s txId today).fst.users tx.userId =
        some { u with balances :=
          u.balances.set tx.coin (u.balances.get tx.coin + tx.amount) } ∧
      (approveDeposit s txId today).fst.memberships = s.memberships) ∧
    (∀ tier, membershipTierOf tx.meta = some tier → TIERS tier = none →
      findUser (approveDeposit s txId today).fst.users tx.userId =
        some { u with balances :=
          u.balances.set tx.coin (u.balances.get tx.coin + tx.amount) } ∧
      (approveDeposit s txId today).fst.memberships = s.memberships) := by
  have hst' : tx.status ≠ .CONFIRMED := by rw [hst]; intro hco; cases hco
  refine ⟨?_, ?_, ?_, ?_⟩
  · rcases hmt : membershipTierOf tx.meta with _ | tier
    · simp [approveDeposit, ht, hty, hst', hu, hmt,
        List.getElem?_set_self (getElem?_some_lt ht)]
    · rcases hcfg : TIERS tier with _ | tcfg <;>
        simp [approveDeposit, ht, hty, hst', hu, hmt, hcfg,
          List.getElem?_set_self (getElem?_some_lt ht)]
  · intro tier tcfg hmt hcfg
    refine ⟨?_, ?_, ?_⟩
    · simp [approveDeposit, ht, hty, hst', hu, hmt, hcfg]
    · simp only [approveDeposit, ht, hty, hst', hu, hmt, hcfg]
      simp [hst', findUser_saveUser_self _ hu]
    · simp [approveDeposit, ht, hty, hst', hu, hmt, hcfg]
  · intro hmt
    refine ⟨?_, ?_⟩
    · simp only [approveDeposit, ht, hty, hst', hu, hmt]
      simp [hst', findUser_saveUser_self _ hu]
    · simp [approveDeposit, ht, hty, hst', hu, hmt]
  · intro tier hmt hcfg
    refine ⟨?_, ?_⟩
    · simp only [approveDeposit, ht, hty, hst', hu, hmt, hcfg]
      simp [hst', findUser_saveUser_self _ hu]
    · simp [approveDeposit, ht, hty, hst', hu, hmt, hcfg]

theorem approveDeposit_pending_spec_witness :
    (approveDeposit exMemState 0 3).fst.txs[0]? =
      some { exMemTx with status := .CONFIRMED } ∧
    (approveDeposit exMemState 0 3).snd = .membershipActivated ∧
    findUser (approveDeposit exMemState 0 3).fst.users 0 =
      some { exUser with
        membership := some "V1"
        membershipActivatedAt := some 3 } ∧
    (approveDeposit exMemState 0 3).fst.memberships =
      [⟨0, "V1", 3, .ACTIVE, 5, 0, 10, 50, false, none⟩] := by
  have h := @approveDeposit_pending_spec exMemState 0 3 exMemTx exUser
    (by decide) (by decide) (by decide) (by decide)
  have h2 := h.2.1 "V1" ⟨51, 10, 5, 50⟩ (by decide) (by decide)
  exact ⟨h.1, h2.1, h2.2.1, h2.2.2⟩

/-- Claim C2: approving a withdraw whose amount exceeds the user's current
coin balance sets the transaction to DECLINED, returns an error, and leaves
every balance of the user unchanged; otherwise it sets the status to
CONFIRMED, deducts exactly the amount from that coin balance, and attaches
the supplied transaction hash to the metadata. -/
theorem approveWithdraw_spec {s : ServerState} {txId : Nat} {tx : Tx} {u : User}
    (txHash : Option String)
    (ht : s.txs[txId]? = some tx)
    (hty : tx.type = .WITHDRAW)
    (hst : tx.status ≠ .CONFIRMED)
    (hu : findUser s.users tx.userId = some u) :
    (u.balances.get tx.coin < tx.amount →
      approveWithdraw s txId txHash =
        ({ s with txs := s.txs.set txId { tx with status := .DECLINED } },
         .insufficient)) ∧
    (tx.amount ≤ u.balances.get tx.coin →
      (approveWithdraw s txId txHash).snd = .ok ∧
      (approveWithdraw s txId txHash).fst.txs[txId]? =
        some { tx with status := .CONFIRMED,
                       meta := { tx.meta with txHash := txHash } } ∧
      findUser (approveWithdraw s txId txHash).fst.users tx.userId =
        some { u with balances :=
          u.balances.set tx.coin (u.balances.get tx.coin - tx.amount) }) := by
  constructor
  · intro hlt
    simp [approveWithdraw, ht, hty, hst, hu, hlt]
  · intro hge
    have hnlt : ¬ u.balances.get tx.coin < tx.amount := not_lt.mpr hge
    refine ⟨?_, ?_, ?_⟩
    · simp [approveWithdraw, ht, hty, hst, hu, hnlt]
    · simp [approveWithdraw, ht, hty, hst, hu, hnlt,
        List.getElem?_set_self (getElem?_some_lt ht)]
    · simp only [approveWithdraw, ht, hty, hst, hu, hnlt]
      simp [findUser_saveUser_self _ hu]

theorem approveWithdraw_spec_witness :
    approveWithdraw exWdBigState 0 none =
      ({ exWdBigState with
         txs := exWdBigState.txs.set 0
           { exWdBigTx with status := .DECLINED } },
       .insufficient) := by
  have h := @approveWithdraw_spec exWdBigState 0 exWdBigTx exUser none
    (by decide) (by decide) (by decide) (by decide)
  exact h.1 (by decide)

/-- Claim C3: approving the same deposit twice is idempotent — the state
after two approvals (on any two dates) equals the state after one, so a
second approval changes no balance and creates no membership. -/
theorem approveDeposit_idempotent (s : ServerState) (txId d1 d2 : Nat) :
    (approveDeposit (approveDeposit s txId d1).fst txId d2).fst =
      (approveDeposit s txId d1).fst := by
  rcases ht : s.txs[txId]? with _ | tx
  · have h1 : (approveDeposit s txId d1).fst = s := by simp [approveDeposit, ht]
    rw [h1]
    simp [approveDeposit, ht]
  · by_cases hty : tx.type = .DEPOSIT
    · by_cases hst : tx.status = .CONFIRMED
      · have h1 : (approveDeposit s txId d1).fst = s :=
          approveDeposit_of_confirmed ht hst
        rw [h1]
        exact approveDeposit_of_confirmed ht hst
      · exact approveDeposit_of_confirmed (approveDeposit_confirms ht hty hst) rfl
    · have h1 : (approveDeposit s txId d1).fst = s := by
        simp [approveDeposit, ht, hty]
      rw [h1]
      simp [approveDeposit, ht, hty]

/-- Claim C4 (code bug): a tier V1 membership (daily 10, duration 5, bonus
50) run through the scheduler on 6 distinct dates never receives the 50
bonus: run 5 marks the membership COMPLETED, the scheduler's ACTIVE-only
query then excludes it, so the 6th run returns no result for it, bonusPaid
stays false, the USD balance stays at 50 (not 100), and no PAYOUT
transaction is ever created. -/
theorem membership_bonus_never_paid :
    ((runDays v1State [1, 2, 3, 4, 5]).memberships[0]?).map
      Membership.daysPaid = some 5 ∧
    ((runDays v1State [1, 2, 3, 4, 5]).memberships[0]?).map
      Membership.status = some MStatus.COMPLETED ∧
    (findUser (runDays v1State [1, 2, 3, 4, 5]).users 0).map
      (fun v => v.balances.get .USD) = some 50 ∧
    (cronPayouts (runDays v1State [1, 2, 3, 4, 5]) 6).snd = [] ∧
    ((runDays v1State [1, 2, 3, 4, 5, 6]).memberships[0]?).map
      Membership.bonusPaid = some false ∧
    (findUser (runDays v1State [1, 2, 3, 4, 5, 6]).users 0).map
      (fun v => v.balances.get .USD) = some 50 ∧
    (∀ t ∈ (runDays v1State [1, 2, 3, 4, 5, 6, 7, 8]).txs,
      t.type ≠ TxType.PAYOUT) ∧
    (findUser (runDays v1State [1, 2, 3, 4, 5, 6, 7, 8]).users 0).map
      (fun v => v.balances.get .USD) = some 50 := by
  refine ⟨by decide, by decide, ?_, by decide, by decide, ?_, by decide, ?_⟩
    <;>
  · simp [runDays, cronPayouts, cronLoop, cronStep, creditUSD, saveUser,
      findUser, v1State, v1Mem, exUser, zeroBalances, Balances.get,
      Balances.set, TxMeta.empty, List.range_succ,
      (by norm_num : ¬ (10 : ℚ) ≤ 0)]
    norm_num

/-- Claim C5 counterexample: an ACTIVE membership with daysPaid 4 of 5 is
paid its daily amount by the first run on date 9, which completes it; the
second run on date 9 produces no result at all for it (the results list is
empty and contains no "already paid today" entry), contradicting the claim
that any run after the first on that date skips the membership with an
"already paid today" result. -/
theorem cron_same_day_skip_label_cex :
    ((runDays v1State [1, 2, 3, 4]).memberships[0]?).map
      Membership.status = some MStatus.ACTIVE ∧
    ((runDays v1State [1, 2, 3, 4]).memberships[0]?).map
      Membership.dailyAmount = some 10 ∧
    (cronPayouts (runDays v1State [1, 2, 3, 4]) 9).snd =
      [CronOut.paidDaily 0 5] ∧
    (cronPayouts (cronPayouts (runDays v1State [1, 2, 3, 4]) 9).fst 9).snd =
      [] ∧
    CronOut.skippedToday 0 ∉
      (cronPayouts (cronPayouts (runDays v1State [1, 2, 3, 4]) 9).fst 9).snd
    := by decide

/-- Claim C5 (amended): for an ACTIVE membership not yet paid on the
current date, with daysPaid < durationDays and a positive daily amount,
running the scheduler again on the same date is a state no-op (the state
after the second run equals the state after the first, so the daily amount
is credited at most once and neither daysPaid nor any balance changes), and
when the first run does not complete the membership the second run skips it
with an "already paid today" result. -/
theorem cron_same_day_no_double_pay {s : ServerState} {today i : Nat}
    {m : Membership}
    (hm : s.memberships[i]? = some m) (hact : m.status = .ACTIVE)
    (hlp : m.lastPayout ≠ some today) (hdp : m.daysPaid < m.durationDays)
    (hda : 0 < m.dailyAmount) :
    (cronPayouts (cronPayouts s today).fst today).fst =
      (cronPayouts s today).fst ∧
    (m.daysPaid + 1 < m.durationDays →
      CronOut.skippedToday i ∈
        (cronPayouts (cronPayouts s today).fst today).snd) := by
  have hlen0 : i < s.memberships.length := (List.getElem?_eq_some.mp hm).1
  have hrunlen : (cronPayouts s today).fst.memberships.length =
      s.memberships.length := cronLoop_length _ _ _ _
  have hstable : ∀ (j : Nat) (m' : Membership),
      (cronPayouts s today).fst.memberships[j]? = some m' →
        recStable today m' := by
    intro j m' hm'
    by_cases hj : j < s.memberships.length
    · exact @cronLoop_stab today (List.range s.memberships.length) s [] j
        (Or.inl (List.mem_range.mpr hj)) m' hm'
    · exfalso
      have hnone : (cronPayouts s today).fst.memberships[j]? = none := by
        apply List.getElem?_eq_none
        rw [hrunlen]
        exact not_lt.mp hj
      rw [hnone] at hm'; cases hm'
  constructor
  · rw [show cronPayouts (cronPayouts s today).fst today =
      cronLoop today
        (List.range (cronPayouts s today).fst.memberships.length)
        (cronPayouts s today).fst [] from rfl]
    exact cronLoop_of_all_stable _ (fun j hj m' hm' => hstable j m' hm')
  · intro hdp1
    have hupd : (cronPayouts s today).fst.memberships[i]? =
        some (dailyUpdate today m) :=
      cronLoop_daily_update (List.nodup_range _)
        (List.mem_range.mpr hlen0) hm hact hlp hdp hda
    have hact1 : (dailyUpdate today m).status = .ACTIVE := by
      simp [dailyUpdate, not_le.mpr hdp1, hact]
    have hmem2 : i ∈ List.range
        (cronPayouts s today).fst.memberships.length := by
      apply List.mem_range.mpr
      rw [hrunlen]
      exact hlen0
    rw [show cronPayouts (cronPayouts s today).fst today =
      cronLoop today
        (List.range (cronPayouts s today).fst.memberships.length)
        (cronPayouts s today).fst [] from rfl]
    exact cronLoop_skips_today_mem hstable hmem2 hupd hact1 rfl

theorem cron_same_day_no_double_pay_witness :
    (cronPayouts (cronPayouts v1State 1).fst 1).fst =
      (cronPayouts v1State 1).fst ∧
    CronOut.skippedToday 0 ∈
      (cronPayouts (cronPayouts v1State 1).fst 1).snd := by
  have h := @cron_same_day_no_double_pay v1State 1 0 v1Mem
    (by decide) (by decide) (by decide) (by decide) (by decide)
  exact ⟨h.1, h.2 (by decide)⟩

/-- Claim C6 counterexample: decline-transaction moves a CONFIRMED
transaction to DECLINED, and approve-deposit on a DECLINED deposit succeeds
and credits the balance (100 + 100 = 200), so CONFIRMED and DECLINED are
not terminal statuses. -/
theorem terminal_status_cex :
    (exCState.txs[0]?).map Tx.status = some TxStatus.CONFIRMED ∧
    ((declineTransaction exCState 0).fst.txs[0]?).map Tx.status =
      some TxStatus.DECLINED ∧
    (exDeclState.txs[0]?).map Tx.status = some TxStatus.DECLINED ∧
    (approveDeposit exDeclState 0 7).snd = DepRes.ok ∧
    (findUser (approveDeposit exDeclState 0 7).fst.users 0).map
      (fun v => v.balances.get Coin.USDT) = some 200 := by
  refine ⟨by decide, by decide, by decide, by decide, ?_⟩
  simp [approveDeposit, exDeclState, exDeclTx, exUser, findUser, saveUser,
    membershipTierOf, TxMeta.empty, Balances.get, Balances.set, zeroBalances]
  norm_num

/-- Claim C6 (amended): decline-transaction never mutates any user's
balances, and approve-deposit and approve-withdraw are state no-ops on a
transaction that is already CONFIRMED (so a confirmed transaction can never
be double-credited or double-debited); however decline-transaction changes
the status of any transaction, even a CONFIRMED one, to DECLINED, and a
DECLINED deposit can still be approved and credited. -/
theorem terminal_guard_amended (s : ServerState) (txId d : Nat)
    (h : Option String) :
    (declineTransaction s txId).fst.users = s.users ∧
    (∀ tx, s.txs[txId]? = some tx → tx.status = .CONFIRMED →
      (approveDeposit s txId d).fst = s ∧
      (approveWithdraw s txId h).fst = s) := by
  constructor
  · rcases ht : s.txs[txId]? with _ | tx <;> simp [declineTransaction, ht]
  · intro tx ht hst
    refine ⟨approveDeposit_of_confirmed ht hst, ?_⟩
    by_cases hty : tx.type = .WITHDRAW
    · simp [approveWithdraw, ht, hty, hst]
    · simp [approveWithdraw, ht, hty]

theorem terminal_guard_amended_witness :
    (declineTransaction exCState 0).fst.users = exCState.users ∧
    ((approveDeposit exCState 0 7).fst = exCState ∧
     (approveWithdraw exCState 0 none).fst = exCState) := by
  have h := terminal_guard_amended exCState 0 7 none
  exact ⟨h.1, h.2 exCTx (by decide) (by decide)⟩

/-- Claim C7: an internal transfer of amount a in an allowed coin c from
user A to a distinct existing user B, when A's balance in c is at least a,
decreases A's balance in c by exactly a, increases B's balance in c by
exactly a, leaves all other balances of both users unchanged, and appends
exactly two CONFIRMED TRANSFER records: one for A tagged SENT naming B and
one for B tagged RECEIVED naming A. -/
theorem internalTransfer_spec {s : ServerState} {senderId recvId : Nat}
    {recipient coinStr : String} {coin : Coin} {amount : ℚ}
    {sender receiver : User}
    (hs : findUser s.users senderId = some sender)
    (hr : findByUsername s.users recipient = some (recvId, receiver))
    (hr2 : findUser s.users recvId = some receiver)
    (hne : recvId ≠ senderId)
    (hrne : recipient ≠ "")
    (hc : allowedCoin coinStr = some coin)
    (hpos : 0 < amount)
    (hbal : amount ≤ sender.balances.get coin) :
    (internalTransfer s senderId recipient amount coinStr).snd = .ok ∧
    findUser (internalTransfer s senderId recipient amount coinStr).fst.users
        senderId =
      some { sender with balances :=
        sender.balances.set coin (sender.balances.get coin - amount) } ∧
    findUser (internalTransfer s senderId recipient amount coinStr).fst.users
        recvId =
      some { receiver with balances :=
        receiver.balances.set coin (receiver.balances.get coin + amount) } ∧
    (internalTransfer s senderId recipient amount coinStr).fst.txs =
      s.txs ++
        [⟨senderId, .TRANSFER, coin, amount, .CONFIRMED,
          { TxMeta.empty with
            direction := some "SENT", toUser := some receiver.username }⟩,
         ⟨recvId, .TRANSFER, coin, amount, .CONFIRMED,
          { TxMeta.empty with
            direction := some "RECEIVED", fromUser := some sender.username }⟩] ∧
    (∀ c, c ≠ coin →
      (sender.balances.set coin (sender.balances.get coin - amount)).get c =
        sender.balances.get c ∧
      (receiver.balances.set coin (receiver.balances.get coin + amount)).get c =
        receiver.balances.get c) := by
  have hnlt : ¬ sender.balances.get coin < amount := not_lt.mpr hbal
  refine ⟨?_, ?_, ?_, ?_, ?_⟩
  · simp [internalTransfer, hrne, hc, hs, hnlt, hr, not_le.mpr hpos]
  · simp only [internalTransfer, hrne, hc, hs, hnlt, hr, not_le.mpr hpos]
    simp [not_le.mpr hpos, hrne, findUser_saveUser_ne _ (Ne.symm hne),
      findUser_saveUser_self _ hs]
  · simp only [internalTransfer, hrne, hc, hs, hnlt, hr, not_le.mpr hpos]
    have h1 : findUser (saveUser s.users senderId
        { sender with balances :=
          sender.balances.set coin (sender.balances.get coin - amount) })
        recvId = some receiver := by
      rw [findUser_saveUser_ne _ hne]; exact hr2
    simp [not_le.mpr hpos, hrne, findUser_saveUser_self _ h1]
  · simp [internalTransfer, hrne, hc, hs, hnlt, hr, not_le.mpr hpos]
  · intro c hcne
    exact ⟨Balances.get_set_ne _ _ hcne, Balances.get_set_ne _ _ hcne⟩

theorem internalTransfer_spec_witness :
    (internalTransfer twoUserState 0 "bob" 30 "USDT").snd = .ok ∧
    findUser (internalTransfer twoUserState 0 "bob" 30 "USDT").fst.users 0 =
      some { exUser with
        balances := exUser.balances.set .USDT
          (exUser.balances.get .USDT - 30) } ∧
    findUser (internalTransfer twoUserState 0 "bob" 30 "USDT").fst.users 1 =
      some { bobUser with
        balances := bobUser.balances.set .USDT
          (bobUser.balances.get .USDT + 30) } := by
  have h := @internalTransfer_spec twoUserState 0 1 "bob" "USDT" Coin.USDT 30
    exUser bobUser (by decide) (by decide) (by decide) (by decide)
    (by decide) (by decide) (by decide) (by decide)
  exact ⟨h.1, h.2.1, h.2.2.1⟩

/-- Claim C8: a withdraw request in a supported coin whose amount exceeds
the user's current balance for that coin fails with the insufficient-
balance error, creates no transaction record, and leaves the state (hence
every balance) unchanged. -/
theorem withdraw_insufficient_balance {s : ServerState} {userId : Nat}
    {coinStr : String} {coin : Coin} {amount : ℚ} {u : User}
    (hc : allowedCoin coinStr = some coin)
    (hu : findUser s.users userId = some u)
    (hpos : 0 < amount)
    (hins : u.balances.get coin < amount) :
    createWithdraw s userId coinStr amount = (s, .insufficientBalance) := by
  have hne : coinStr ≠ "" := by
    intro he; subst he; simp [allowedCoin] at hc
  simp [createWithdraw, hne, hc, hu, hins, not_le.mpr hpos]

theorem withdraw_insufficient_balance_witness :
    createWithdraw exState 0 "USDT" 150 = (exState, .insufficientBalance) :=
  @withdraw_insufficient_balance exState 0 "USDT" Coin.USDT 150 exUser
    (by decide) (by decide) (by decide) (by decide)

/-- Claim C9: every run of the payout scheduler preserves the invariant
daysPaid ≤ durationDays for every membership record: daysPaid is only
incremented when strictly below durationDays, so it never exceeds it. -/
theorem cron_daysPaid_le_durationDays {s : ServerState} {today i : Nat}
    {m : Membership} (hm : s.memberships[i]? = some m)
    (hinv : m.daysPaid ≤ m.durationDays) :
    ∀ m', (cronPayouts s today).fst.memberships[i]? = some m' →
      m'.daysPaid ≤ m'.durationDays := by
  apply cronLoop_daysPaid
  intro m2 hm2
  rw [hm] at hm2; cases hm2
  exact hinv

theorem cron_daysPaid_le_durationDays_witness :
    v1State.memberships[0]? = some v1Mem ∧
    v1Mem.daysPaid ≤ v1Mem.durationDays ∧
    (cronPayouts v1State 3).fst.memberships[0]? =
      some (dailyUpdate 3 v1Mem) ∧
    (dailyUpdate 3 v1Mem).daysPaid ≤ (dailyUpdate 3 v1Mem).durationDays := by
  have h := @cron_daysPaid_le_durationDays v1State 3 0 v1Mem
    (by decide) (by decide)
  exact ⟨by decide, by decide, by decide, h (dailyUpdate 3 v1Mem) (by decide)⟩

/-- Claim C10: an internal transfer whose recipient username resolves to
the sender's own account, with sufficient balance, increases that single
user's stored balance in the coin by the amount (the credited receiver
document is saved last and overwrites the debit), so the sum of all users'
balances in that coin grows by the amount instead of being preserved. -/
theorem internalTransfer_self {s : ServerState} {senderId : Nat}
    {recipient coinStr : String} {coin : Coin} {amount : ℚ} {u : User}
    (hs : findUser s.users senderId = some u)
    (hr : findByUsername s.users recipient = some (senderId, u))
    (hrne : recipient ≠ "")
    (hc : allowedCoin coinStr = some coin)
    (hpos : 0 < amount)
    (hbal : amount ≤ u.balances.get coin)
    (hnd : (s.users.map Prod.fst).Nodup) :
    (internalTransfer s senderId recipient amount coinStr).snd = .ok ∧
    findUser (internalTransfer s senderId recipient amount coinStr).fst.users
        senderId =
      some { u with
        balances := u.balances.set coin (u.balances.get coin + amount) } ∧
    u.balances.get coin + amount ≠ u.balances.get coin ∧
    coinTotal (internalTransfer s senderId recipient amount coinStr).fst.users
        coin = coinTotal s.users coin + amount := by
  have hnlt : ¬ u.balances.get coin < amount := not_lt.mpr hbal
  have h1 : findUser (saveUser s.users senderId { u with balances := u.balances.set coin (u.balances.get coin - amount) }) senderId = some { u with balances := u.balances.set coin (u.balances.get coin - amount) } :=
    findUser_saveUser_self _ hs
  refine ⟨?_, ?_, ?_, ?_⟩
  · simp [internalTransfer, hrne, hc, hs, hnlt, hr, not_le.mpr hpos]
  · simp only [internalTransfer, hrne, hc, hs, hnlt, hr, not_le.mpr hpos]
    simp [not_le.mpr hpos, hrne, findUser_saveUser_self _ h1]
  · intro hcontra
    have h0 : amount = 0 := by linarith [hcontra]
    exact absurd h0 (ne_of_gt hpos)
  · simp only [internalTransfer, hrne, hc, hs, hnlt, hr, not_le.mpr hpos]
    have hnd1 : ((saveUser s.users senderId { u with balances := u.balances.set coin (u.balances.get coin - amount) }).map Prod.fst).Nodup := by
      rw [saveUser_keys]; exact hnd
    have ht1 := coinTotal_saveUser (u := u) { u with balances := u.balances.set coin (u.balances.get coin - amount) } coin hnd hs
    have ht2 := coinTotal_saveUser (u := { u with balances := u.balances.set coin (u.balances.get coin - amount) }) { u with balances := u.balances.set coin (u.balances.get coin + amount) } coin hnd1 h1
    simp only [false_or, or_self, if_false]
    rw [ht2, ht1]
    simp only [Balances.get_set_self]
    ring

theorem internalTransfer_self_witness :
    (internalTransfer exState 0 "alice" 30 "USDT").snd = .ok ∧
    findUser (internalTransfer exState 0 "alice" 30 "USDT").fst.users 0 =
      some { exUser with
        balances := exUser.balances.set .USDT
          (exUser.balances.get .USDT + 30) } ∧
    exUser.balances.get .USDT + 30 ≠ exUser.balances.get .USDT ∧
    coinTotal (internalTransfer exState 0 "alice" 30 "USDT").fst.users
      .USDT = coinTotal exState.users .USDT + 30 :=
  @internalTransfer_self exState 0 "alice" "USDT" Coin.USDT 30 exUser
    (by decide) (by decide) (by decide) (by decide) (by decide) (by decide)
    (by decide)

end Stake
